import Mathlib

/-!
Verification of the cluster-based permutation test repository
(`proximity.py`, `mass_univariate.py`).

The Python code is shallowly embedded: real-valued data becomes `ℚ`,
numpy arrays become `List`s or index functions, sparse boolean matrices
become entry functions `Nat → Nat → Bool` built from their coordinate
pair lists, and fallible numpy operations (empty-array reductions,
out-of-range indexing, `setdiag` on an out-of-bounds diagonal) return
an `Option`.
-/

namespace Cbpktst

/-! ### Spatial proximity (`proximity.py`) -/

/-- Squared Euclidean distance between two coordinate rows.
Embeds the metric used by `sklearn.metrics.pairwise_distances` and
`sklearn.neighbors.KDTree` (kept squared so everything stays in `ℚ`). -/
def sqDist (p q : List ℚ) : ℚ :=
  ((p.zip q).map (fun ab => (ab.1 - ab.2) ^ 2)).sum

/-- The comparison `euclidean_distance(coordinates[i], coordinates[j]) ≤ t`,
expressed without square roots: for a real threshold `t` it holds iff
`t` is nonnegative and the squared distance is at most `t²`. -/
def distLE (coordinates : List (List ℚ)) (i j : Nat) (t : ℚ) : Bool :=
  decide (0 ≤ t ∧ sqDist (coordinates.getD i []) (coordinates.getD j []) ≤ t ^ 2)

/-- Embeds `compute_boolean_proximity_matrix` (proximity.py lines 9-18):
`pairwise_distances(coordinates) <= threshold`, as an entry function. -/
def compute_boolean_proximity_matrix (coordinates : List (List ℚ)) (threshold : ℚ)
    (i j : Nat) : Bool :=
  distLE coordinates i j threshold

/-- Embeds `tree.query_radius(coordinates, r=threshold)[i]` (proximity.py line 39):
the indices of all units within distance `threshold` of unit `i`. -/
def query_radius (coordinates : List (List ℚ)) (threshold : ℚ) (i : Nat) : List Nat :=
  (List.range coordinates.length).filter (fun j => distLE coordinates i j threshold)

/-- The `(row, column)` pairs assembled from the radius-query results
(proximity.py lines 40-43): for each unit `i`, one pair `(i, j)` per
neighbor `j` of `i`. -/
def sparsePairs (coordinates : List (List ℚ)) (threshold : ℚ) : List (Nat × Nat) :=
  (List.range coordinates.length).flatMap
    (fun i => (query_radius coordinates threshold i).map (fun j => (i, j)))

/-- Embeds `compute_sparse_boolean_proximity_matrix` (proximity.py lines 21-44):
the COO matrix built from `sparsePairs`, as an entry function. -/
def compute_sparse_boolean_proximity_matrix (coordinates : List (List ℚ)) (threshold : ℚ)
    (i j : Nat) : Bool :=
  (sparsePairs coordinates threshold).contains (i, j)

theorem sqDist_symm (p q : List ℚ) : sqDist p q = sqDist q p := by
  unfold sqDist
  induction p generalizing q with
  | nil => cases q <;> simp
  | cons a p ih =>
    cases q with
    | nil => simp
    | cons b q => simp [List.zip_cons_cons, ih q]; ring

theorem sqDist_self (p : List ℚ) : sqDist p p = 0 := by
  unfold sqDist
  induction p with
  | nil => simp
  | cons a p ih => simp [List.zip_cons_cons, ih]

theorem distLE_symm (coordinates : List (List ℚ)) (i j : Nat) (t : ℚ) :
    distLE coordinates i j t = distLE coordinates j i t := by
  unfold distLE
  rw [sqDist_symm]

theorem distLE_self (coordinates : List (List ℚ)) (i : Nat) (t : ℚ) (ht : 0 ≤ t) :
    distLE coordinates i i t = true := by
  unfold distLE
  rw [sqDist_self]
  exact decide_eq_true ⟨ht, by positivity⟩

theorem mem_sparsePairs (coordinates : List (List ℚ)) (threshold : ℚ) (i j : Nat) :
    (i, j) ∈ sparsePairs coordinates threshold ↔
      i < coordinates.length ∧ j < coordinates.length ∧
        distLE coordinates i j threshold = true := by
  unfold sparsePairs query_radius
  simp only [List.mem_flatMap, List.mem_map, List.mem_filter, List.mem_range]
  constructor
  · rintro ⟨a, ha, b, ⟨hb, hd⟩, hab⟩
    obtain ⟨rfl, rfl⟩ := Prod.mk.injEq .. ▸ hab
    exact ⟨ha, hb, hd⟩
  · rintro ⟨hi, hj, hd⟩
    exact ⟨i, hi, j, ⟨hj, hd⟩, rfl⟩

theorem sparse_eq_dense (coordinates : List (List ℚ)) (threshold : ℚ) (i j : Nat)
    (hi : i < coordinates.length) (hj : j < coordinates.length) :
    compute_sparse_boolean_proximity_matrix coordinates threshold i j =
      compute_boolean_proximity_matrix coordinates threshold i j := by
  unfold compute_sparse_boolean_proximity_matrix compute_boolean_proximity_matrix
  rw [Bool.eq_iff_iff]
  constructor
  · intro h
    have hm : (i, j) ∈ sparsePairs coordinates threshold := by simpa using h
    exact ((mem_sparsePairs coordinates threshold i j).1 hm).2.2
  · intro h
    have hm := (mem_sparsePairs coordinates threshold i j).2 ⟨hi, hj, h⟩
    simpa using hm

/-! ### Space-time proximity (`proximity.py` lines 47-101) -/

/-- The spatial proximity matrix chosen by the `space_sparse` flag
(proximity.py lines 83-86). -/
def proximity_matrix_space (coordinates : List (List ℚ)) (threshold_space : ℚ)
    (space_sparse : Bool) (i j : Nat) : Bool :=
  if space_sparse then compute_sparse_boolean_proximity_matrix coordinates threshold_space i j
  else compute_boolean_proximity_matrix coordinates threshold_space i j

/-- Embeds `proximity_matrix_space.nonzero()` (proximity.py line 91): the pairs
`(x, y)` with a true entry, in row-major order. -/
def spatialPairs (coordinates : List (List ℚ)) (threshold_space : ℚ)
    (space_sparse : Bool) : List (Nat × Nat) :=
  (List.range coordinates.length).flatMap
    (fun x =>
      ((List.range coordinates.length).filter
        (fun y => proximity_matrix_space coordinates threshold_space space_sparse x y)).map
        (fun y => (x, y)))

/-- Proximity.py lines 92-94: the nonzero spatial pairs replicated as a
block on the diagonal, once per timestep, at offset `t * n_units`. -/
def blockPairs (sp : List (Nat × Nat)) (n_units n_timesteps : Nat) : List (Nat × Nat) :=
  (List.range n_timesteps).flatMap
    (fun t => sp.map (fun xy => (xy.1 + t * n_units, xy.2 + t * n_units)))

/-- Proximity.py lines 97-99: the entries written by the two `setdiag`
calls for temporal offset `k`, i.e. the diagonal bands at offsets
`± n_units * k`, each of length `n_units * (n_timesteps - k)`. -/
def bandPairs (n_units n_timesteps k : Nat) : List (Nat × Nat) :=
  ((List.range (n_units * (n_timesteps - k))).map (fun r => (r, r + n_units * k))) ++
    ((List.range (n_units * (n_timesteps - k))).map (fun r => (r + n_units * k, r)))

/-- The entry function of the space-time proximity matrix: true iff the
entry is set by the diagonal blocks or by one of the temporal bands
`k = 1 .. threshold_timesteps`. -/
def spacetime_entry (coordinates : List (List ℚ)) (n_timesteps threshold_timesteps : Nat)
    (threshold_space : ℚ) (space_sparse : Bool) (i j : Nat) : Bool :=
  (blockPairs (spatialPairs coordinates threshold_space space_sparse)
      coordinates.length n_timesteps).contains (i, j) ||
    (List.range threshold_timesteps).any
      (fun k0 => (bandPairs coordinates.length n_timesteps (k0 + 1)).contains (i, j))

/-- Whether the `setdiag` call for temporal offset `k` succeeds:
`np.ones(n_units * (n_timesteps - k))` needs a nonnegative size (checked
in `ℤ`), and `scipy.sparse` `setdiag` raises when a nonzero diagonal
offset `n_units * k` reaches the matrix dimension `N`. -/
def setdiag_ok (n_units n_timesteps N k : Nat) : Bool :=
  decide (0 ≤ (n_units : Int) * ((n_timesteps : Int) - (k : Int))) &&
    (n_units * k == 0 || n_units * k < N)

/-- Whether the whole `setdiag` loop (proximity.py lines 97-99) runs
without raising. -/
def spacetime_ok (n_units n_timesteps threshold_timesteps : Nat) : Bool :=
  (List.range threshold_timesteps).all
    (fun k0 => setdiag_ok n_units n_timesteps (n_units * n_timesteps) (k0 + 1))

/-- Embeds `compute_sparse_boolean_proximity_matrix_space_time` (proximity.py
lines 47-101): `none` models the exception raised inside the `setdiag`
loop; otherwise the entry function of the returned matrix. -/
def compute_sparse_boolean_proximity_matrix_space_time (coordinates : List (List ℚ))
    (n_timesteps threshold_timesteps : Nat) (threshold_space : ℚ) (space_sparse : Bool) :
    Option (Nat → Nat → Bool) :=
  if spacetime_ok coordinates.length n_timesteps threshold_timesteps then
    some (spacetime_entry coordinates n_timesteps threshold_timesteps
      threshold_space space_sparse)
  else none

theorem proximity_matrix_space_symm (coordinates : List (List ℚ)) (threshold_space : ℚ)
    (space_sparse : Bool) (i j : Nat) :
    proximity_matrix_space coordinates threshold_space space_sparse i j =
      proximity_matrix_space coordinates threshold_space space_sparse j i := by
  unfold proximity_matrix_space
  cases space_sparse with
  | false => simpa using distLE_symm coordinates i j threshold_space
  | true =>
    simp only [if_pos]
    unfold compute_sparse_boolean_proximity_matrix
    rw [Bool.eq_iff_iff]
    constructor
    · intro h
      have hm := (mem_sparsePairs coordinates threshold_space i j).1 (by simpa using h)
      have : (j, i) ∈ sparsePairs coordinates threshold_space :=
        (mem_sparsePairs coordinates threshold_space j i).2
          ⟨hm.2.1, hm.1, by rw [distLE_symm]; exact hm.2.2⟩
      simpa using this
    · intro h
      have hm := (mem_sparsePairs coordinates threshold_space j i).1 (by simpa using h)
      have : (i, j) ∈ sparsePairs coordinates threshold_space :=
        (mem_sparsePairs coordinates threshold_space i j).2
          ⟨hm.2.1, hm.1, by rw [distLE_symm]; exact hm.2.2⟩
      simpa using this

theorem proximity_matrix_space_self (coordinates : List (List ℚ)) (threshold_space : ℚ)
    (space_sparse : Bool) (u : Nat) (hu : u < coordinates.length) (ht : 0 ≤ threshold_space) :
    proximity_matrix_space coordinates threshold_space space_sparse u u = true := by
  unfold proximity_matrix_space
  cases space_sparse with
  | false => simpa using distLE_self coordinates u threshold_space ht
  | true =>
    simp only [if_pos]
    unfold compute_sparse_boolean_proximity_matrix
    have : (u, u) ∈ sparsePairs coordinates threshold_space :=
      (mem_sparsePairs coordinates threshold_space u u).2
        ⟨hu, hu, distLE_self coordinates u threshold_space ht⟩
    simpa using this

theorem mem_spatialPairs (coordinates : List (List ℚ)) (threshold_space : ℚ)
    (space_sparse : Bool) (x y : Nat) :
    (x, y) ∈ spatialPairs coordinates threshold_space space_sparse ↔
      x < coordinates.length ∧ y < coordinates.length ∧
        proximity_matrix_space coordinates threshold_space space_sparse x y = true := by
  unfold spatialPairs
  simp only [List.mem_flatMap, List.mem_map, List.mem_filter, List.mem_range]
  constructor
  · rintro ⟨a, ha, b, ⟨hb, hd⟩, hab⟩
    obtain ⟨rfl, rfl⟩ := Prod.mk.injEq .. ▸ hab
    exact ⟨ha, hb, hd⟩
  · rintro ⟨hx, hy, hd⟩
    exact ⟨x, hx, y, ⟨hy, hd⟩, rfl⟩

theorem mem_blockPairs (sp : List (Nat × Nat)) (n_units n_timesteps i j : Nat) :
    (i, j) ∈ blockPairs sp n_units n_timesteps ↔
      ∃ t, t < n_timesteps ∧ ∃ x y, (x, y) ∈ sp ∧
        i = x + t * n_units ∧ j = y + t * n_units := by
  unfold blockPairs
  simp only [List.mem_flatMap, List.mem_map, List.mem_range]
  constructor
  · rintro ⟨t, ht, ⟨x, y⟩, hxy, hab⟩
    obtain ⟨h1, h2⟩ := Prod.mk.injEq .. ▸ hab
    exact ⟨t, ht, x, y, hxy, h1.symm, h2.symm⟩
  · rintro ⟨t, ht, x, y, hxy, rfl, rfl⟩
    exact ⟨t, ht, ⟨x, y⟩, hxy, rfl⟩

theorem mem_bandPairs (n_units n_timesteps k i j : Nat) :
    (i, j) ∈ bandPairs n_units n_timesteps k ↔
      (i < n_units * (n_timesteps - k) ∧ j = i + n_units * k) ∨
        (j < n_units * (n_timesteps - k) ∧ i = j + n_units * k) := by
  unfold bandPairs
  simp only [List.mem_append, List.mem_map, List.mem_range]
  constructor
  · rintro (⟨r, hr, hab⟩ | ⟨r, hr, hab⟩) <;>
      obtain ⟨h1, h2⟩ := Prod.mk.injEq .. ▸ hab
    · exact Or.inl ⟨h1 ▸ hr, h1 ▸ h2.symm⟩
    · exact Or.inr ⟨h2 ▸ hr, h2 ▸ h1.symm⟩
  · rintro (⟨hlt, rfl⟩ | ⟨hlt, rfl⟩)
    · exact Or.inl ⟨i, hlt, rfl⟩
    · exact Or.inr ⟨j, hlt, rfl⟩

theorem contains_eq_true_iff {α : Type} [BEq α] [LawfulBEq α] (l : List α) (a : α) :
    l.contains a = true ↔ a ∈ l := by simp

theorem spacetime_entry_iff (coordinates : List (List ℚ))
    (n_timesteps threshold_timesteps : Nat) (threshold_space : ℚ) (space_sparse : Bool)
    (i j : Nat) :
    spacetime_entry coordinates n_timesteps threshold_timesteps threshold_space space_sparse
        i j = true ↔
      (∃ t, t < n_timesteps ∧ ∃ x y,
          (x, y) ∈ spatialPairs coordinates threshold_space space_sparse ∧
          i = x + t * coordinates.length ∧ j = y + t * coordinates.length) ∨
        ∃ k, 1 ≤ k ∧ k ≤ threshold_timesteps ∧
          ((i < coordinates.length * (n_timesteps - k) ∧ j = i + coordinates.length * k) ∨
            (j < coordinates.length * (n_timesteps - k) ∧ i = j + coordinates.length * k)) := by
  unfold spacetime_entry
  rw [Bool.or_eq_true, List.any_eq_true, contains_eq_true_iff, mem_blockPairs]
  constructor
  · rintro (h | ⟨k0, hk0, hc⟩)
    · exact Or.inl h
    · rw [contains_eq_true_iff, mem_bandPairs] at hc
      exact Or.inr ⟨k0 + 1, Nat.le_add_left 1 k0, List.mem_range.1 hk0, hc⟩
  · rintro (h | ⟨k, hk1, hk2, hband⟩)
    · exact Or.inl h
    · refine Or.inr ⟨k - 1, List.mem_range.2 (by omega), ?_⟩
      rw [contains_eq_true_iff, mem_bandPairs]
      have hke : k - 1 + 1 = k := by omega
      rw [hke]
      exact hband

theorem spacetime_entry_symm (coordinates : List (List ℚ))
    (n_timesteps threshold_timesteps : Nat) (threshold_space : ℚ) (space_sparse : Bool)
    (i j : Nat) :
    spacetime_entry coordinates n_timesteps threshold_timesteps threshold_space space_sparse
        i j =
      spacetime_entry coordinates n_timesteps threshold_timesteps threshold_space space_sparse
        j i := by
  rw [Bool.eq_iff_iff, spacetime_entry_iff, spacetime_entry_iff]
  have swap : ∀ a b : Nat,
      (∃ t, t < n_timesteps ∧ ∃ x y,
          (x, y) ∈ spatialPairs coordinates threshold_space space_sparse ∧
          a = x + t * coordinates.length ∧ b = y + t * coordinates.length) ∨
        (∃ k, 1 ≤ k ∧ k ≤ threshold_timesteps ∧
          ((a < coordinates.length * (n_timesteps - k) ∧ b = a + coordinates.length * k) ∨
            (b < coordinates.length * (n_timesteps - k) ∧ a = b + coordinates.length * k))) →
      (∃ t, t < n_timesteps ∧ ∃ x y,
          (x, y) ∈ spatialPairs coordinates threshold_space space_sparse ∧
          b = x + t * coordinates.length ∧ a = y + t * coordinates.length) ∨
        (∃ k, 1 ≤ k ∧ k ≤ threshold_timesteps ∧
          ((b < coordinates.length * (n_timesteps - k) ∧ a = b + coordinates.length * k) ∨
            (a < coordinates.length * (n_timesteps - k) ∧ b = a + coordinates.length * k))) := by
    rintro a b (⟨t, ht, x, y, hxy, ha, hb⟩ | ⟨k, hk1, hk2, hband⟩)
    · obtain ⟨hx, hy, hp⟩ := (mem_spatialPairs coordinates threshold_space space_sparse x y).1 hxy
      refine Or.inl ⟨t, ht, y, x, ?_, hb, ha⟩
      exact (mem_spatialPairs coordinates threshold_space space_sparse y x).2
        ⟨hy, hx, by rw [proximity_matrix_space_symm]; exact hp⟩
    · exact Or.inr ⟨k, hk1, hk2, hband.symm⟩
  exact ⟨swap i j, swap j i⟩

theorem spacetime_entry_refl (coordinates : List (List ℚ))
    (n_timesteps threshold_timesteps : Nat) (threshold_space : ℚ) (space_sparse : Bool)
    (ht : 0 ≤ threshold_space) (i : Nat) (hi : i < coordinates.length * n_timesteps) :
    spacetime_entry coordinates n_timesteps threshold_timesteps threshold_space space_sparse
      i i = true := by
  rw [spacetime_entry_iff]
  have hn : 0 < coordinates.length := by
    rcases Nat.eq_zero_or_pos coordinates.length with h | h
    · rw [h] at hi; omega
    · exact h
  refine Or.inl ⟨i / coordinates.length, ?_, i % coordinates.length, i % coordinates.length,
    ?_, ?_, ?_⟩
  · exact Nat.div_lt_iff_lt_mul hn |>.2 (by rw [Nat.mul_comm] at hi; exact hi)
  · exact (mem_spatialPairs coordinates threshold_space space_sparse _ _).2
      ⟨Nat.mod_lt i hn, Nat.mod_lt i hn,
        proximity_matrix_space_self coordinates threshold_space space_sparse _
          (Nat.mod_lt i hn) ht⟩
  · rw [Nat.mul_comm, Nat.mod_add_div i coordinates.length]
  · rw [Nat.mul_comm, Nat.mod_add_div i coordinates.length]

/-- C5: for every coordinate set and nonnegative thresholds, the spatial
proximity matrix (both the dense and the sparse strategy) and the
space-time proximity matrix are symmetric, and every node is adjacent to
itself. -/
theorem proximity_symmetry_reflexivity (coordinates : List (List ℚ))
    (threshold_space : ℚ) (n_timesteps threshold_timesteps : Nat) (space_sparse : Bool)
    (f : Nat → Nat → Bool)
    (hts : 0 ≤ threshold_space)
    (hf : compute_sparse_boolean_proximity_matrix_space_time coordinates n_timesteps
      threshold_timesteps threshold_space space_sparse = some f) :
    (∀ i j, compute_boolean_proximity_matrix coordinates threshold_space i j =
        compute_boolean_proximity_matrix coordinates threshold_space j i) ∧
      (∀ i, i < coordinates.length →
        compute_boolean_proximity_matrix coordinates threshold_space i i = true) ∧
      (∀ i j, compute_sparse_boolean_proximity_matrix coordinates threshold_space i j =
        compute_sparse_boolean_proximity_matrix coordinates threshold_space j i) ∧
      (∀ i, i < coordinates.length →
        compute_sparse_boolean_proximity_matrix coordinates threshold_space i i = true) ∧
      (∀ i j, f i j = f j i) ∧
      (∀ i, i < coordinates.length * n_timesteps → f i i = true) := by
  have hfval : f = spacetime_entry coordinates n_timesteps threshold_timesteps
      threshold_space space_sparse := by
    unfold compute_sparse_boolean_proximity_matrix_space_time at hf
    by_cases h : spacetime_ok coordinates.length n_timesteps threshold_timesteps = true
    · rw [if_pos h] at hf
      exact (Option.some.injEq .. ▸ hf).symm
    · rw [if_neg h] at hf
      exact absurd hf (by simp)
  subst hfval
  refine ⟨?_, ?_, ?_, ?_, ?_, ?_⟩
  · intro i j
    exact distLE_symm coordinates i j threshold_space
  · intro i hi
    exact distLE_self coordinates i threshold_space hts
  · intro i j
    have := proximity_matrix_space_symm coordinates threshold_space true i j
    simpa [proximity_matrix_space] using this
  · intro i hi
    have := proximity_matrix_space_self coordinates threshold_space true i hi hts
    simpa [proximity_matrix_space] using this
  · intro i j
    exact spacetime_entry_symm coordinates n_timesteps threshold_timesteps threshold_space
      space_sparse i j
  · intro i hi
    exact spacetime_entry_refl coordinates n_timesteps threshold_timesteps threshold_space
      space_sparse hts i hi

theorem proximity_symmetry_reflexivity_witness :
    (0 : ℚ) ≤ 1 ∧
      compute_sparse_boolean_proximity_matrix_space_time [[0], [1]] 2 1 1 false =
        some (spacetime_entry [[0], [1]] 2 1 1 false) ∧
      (∀ i j, compute_boolean_proximity_matrix [[0], [1]] 1 i j =
        compute_boolean_proximity_matrix [[0], [1]] 1 j i) ∧
      (∀ i, i < ([[0], [1]] : List (List ℚ)).length →
        compute_boolean_proximity_matrix [[0], [1]] 1 i i = true) ∧
      (∀ i j, compute_sparse_boolean_proximity_matrix [[0], [1]] 1 i j =
        compute_sparse_boolean_proximity_matrix [[0], [1]] 1 j i) ∧
      (∀ i, i < ([[0], [1]] : List (List ℚ)).length →
        compute_sparse_boolean_proximity_matrix [[0], [1]] 1 i i = true) ∧
      (∀ i j, spacetime_entry [[0], [1]] 2 1 1 false i j =
        spacetime_entry [[0], [1]] 2 1 1 false j i) ∧
      (∀ i, i < ([[0], [1]] : List (List ℚ)).length * 2 →
        spacetime_entry [[0], [1]] 2 1 1 false i i = true) := by
  have h1 : (0 : ℚ) ≤ 1 := by norm_num
  have h2 : compute_sparse_boolean_proximity_matrix_space_time [[0], [1]] 2 1 1 false =
      some (spacetime_entry [[0], [1]] 2 1 1 false) := rfl
  obtain ⟨a, b, c, d, e, g⟩ :=
    proximity_symmetry_reflexivity [[0], [1]] 1 2 1 false
      (spacetime_entry [[0], [1]] 2 1 1 false) h1 h2
  exact ⟨h1, h2, a, b, c, d, e, g⟩

/-- C8: for every coordinate set and every spatial threshold, the dense
strategy (pairwise distances) and the sparse strategy (radius query plus
COO assembly) produce identical boolean adjacency entries over units. -/
theorem sparse_dense_strategy_agreement (coordinates : List (List ℚ)) (threshold : ℚ)
    (i j : Nat) (hi : i < coordinates.length) (hj : j < coordinates.length) :
    compute_sparse_boolean_proximity_matrix coordinates threshold i j =
      compute_boolean_proximity_matrix coordinates threshold i j :=
  sparse_eq_dense coordinates threshold i j hi hj

theorem sparse_dense_strategy_agreement_witness :
    0 < ([[0], [2]] : List (List ℚ)).length ∧ 1 < ([[0], [2]] : List (List ℚ)).length ∧
      compute_sparse_boolean_proximity_matrix [[0], [2]] 1 0 1 =
        compute_boolean_proximity_matrix [[0], [2]] 1 0 1 := by
  refine ⟨by decide, by decide, ?_⟩
  exact sparse_dense_strategy_agreement [[0], [2]] 1 0 1 (by decide) (by decide)

/-- C10: with at least one unit and `1 ≤ n_timesteps ≤ threshold_timesteps`,
the space-time construction raises (the `setdiag` loop reaches offset
`n_units * n_timesteps`, which equals the matrix dimension) instead of
returning a matrix. -/
theorem spacetime_raises_when_timesteps_too_small (coordinates : List (List ℚ))
    (n_timesteps threshold_timesteps : Nat) (threshold_space : ℚ) (space_sparse : Bool)
    (hu : 1 ≤ coordinates.length) (h1 : 1 ≤ n_timesteps)
    (h2 : n_timesteps ≤ threshold_timesteps) :
    compute_sparse_boolean_proximity_matrix_space_time coordinates n_timesteps
      threshold_timesteps threshold_space space_sparse = none := by
  unfold compute_sparse_boolean_proximity_matrix_space_time
  have hfail : spacetime_ok coordinates.length n_timesteps threshold_timesteps = false := by
    unfold spacetime_ok
    rw [List.all_eq_false]
    refine ⟨n_timesteps - 1, List.mem_range.2 (by omega), ?_⟩
    have hk : n_timesteps - 1 + 1 = n_timesteps := by omega
    rw [hk]
    unfold setdiag_ok
    have hpos : coordinates.length * n_timesteps ≠ 0 :=
      Nat.mul_ne_zero (by omega) (by omega)
    simp [hpos]
  rw [hfail]
  simp

theorem spacetime_raises_when_timesteps_too_small_witness :
    1 ≤ ([[0]] : List (List ℚ)).length ∧ 1 ≤ 1 ∧ 1 ≤ 1 ∧
      compute_sparse_boolean_proximity_matrix_space_time [[0]] 1 1 0 false = none := by
  refine ⟨by decide, le_refl 1, le_refl 1, ?_⟩
  exact spacetime_raises_when_timesteps_too_small [[0]] 1 1 0 false (by decide)
    (le_refl 1) (le_refl 1)

theorem spacetime_returns_entry (coordinates : List (List ℚ))
    (n_timesteps threshold_timesteps : Nat) (threshold_space : ℚ) (space_sparse : Bool)
    (f : Nat → Nat → Bool)
    (hf : compute_sparse_boolean_proximity_matrix_space_time coordinates n_timesteps
      threshold_timesteps threshold_space space_sparse = some f) :
    f = spacetime_entry coordinates n_timesteps threshold_timesteps threshold_space
      space_sparse := by
  unfold compute_sparse_boolean_proximity_matrix_space_time at hf
  by_cases h : spacetime_ok coordinates.length n_timesteps threshold_timesteps = true
  · rw [if_pos h] at hf
    exact (Option.some.injEq .. ▸ hf).symm
  · rw [if_neg h] at hf
    exact absurd hf (by simp)

theorem band_indices (n n_timesteps u ta tb k : Nat) (hu : u < n) (htb : tb < n_timesteps)
    (hk : ta + k = tb) :
    u + ta * n < n * (n_timesteps - k) ∧ u + tb * n = (u + ta * n) + n * k := by
  constructor
  · have h1 : u + ta * n < (ta + 1) * n := by
      have : (ta + 1) * n = ta * n + n := by ring
      omega
    have h2 : (ta + 1) * n ≤ (n_timesteps - k) * n :=
      Nat.mul_le_mul_right n (by omega)
    calc u + ta * n < (ta + 1) * n := h1
      _ ≤ (n_timesteps - k) * n := h2
      _ = n * (n_timesteps - k) := Nat.mul_comm _ _
  · have : tb * n = ta * n + k * n := by
      rw [← hk]; ring
    rw [this]; ring

/-- C6: in the space-time proximity matrix, two grid nodes with the same
unit `u` at timesteps `t1`, `t2` are adjacent iff `|t1 - t2| ≤
threshold_timesteps` (with a nonnegative spatial threshold, which makes
a unit spatially adjacent to itself). -/
theorem spacetime_same_unit_adjacency (coordinates : List (List ℚ))
    (n_timesteps threshold_timesteps : Nat) (threshold_space : ℚ) (space_sparse : Bool)
    (f : Nat → Nat → Bool) (u t1 t2 : Nat)
    (hf : compute_sparse_boolean_proximity_matrix_space_time coordinates n_timesteps
      threshold_timesteps threshold_space space_sparse = some f)
    (hts : 0 ≤ threshold_space) (hu : u < coordinates.length)
    (h1 : t1 < n_timesteps) (h2 : t2 < n_timesteps) :
    f (u + t1 * coordinates.length) (u + t2 * coordinates.length) = true ↔
      ((t1 : Int) - (t2 : Int)).natAbs ≤ threshold_timesteps := by
  have hfval := spacetime_returns_entry coordinates n_timesteps threshold_timesteps
    threshold_space space_sparse f hf
  subst hfval
  have hn : 0 < coordinates.length := Nat.lt_of_le_of_lt (Nat.zero_le u) hu
  rw [spacetime_entry_iff]
  constructor
  · rintro (⟨t, ht, x, y, hxy, hi, hj⟩ | ⟨k, hk1, hk2, hband⟩)
    · obtain ⟨hx, hy, _⟩ := (mem_spatialPairs coordinates threshold_space space_sparse x y).1 hxy
      have hxu : x = u := by
        have hmod := congrArg (fun z => z % coordinates.length) hi
        simp only [Nat.add_mul_mod_self_right] at hmod
        rw [Nat.mod_eq_of_lt hu, Nat.mod_eq_of_lt hx] at hmod
        exact hmod.symm
      have hyu : y = u := by
        have hmod := congrArg (fun z => z % coordinates.length) hj
        simp only [Nat.add_mul_mod_self_right] at hmod
        rw [Nat.mod_eq_of_lt hu, Nat.mod_eq_of_lt hy] at hmod
        exact hmod.symm
      subst hxu hyu
      have ht1 : t1 = t := by
        have := Nat.add_left_cancel hi
        exact Nat.eq_of_mul_eq_mul_right hn this
      have ht2 : t2 = t := by
        have := Nat.add_left_cancel hj
        exact Nat.eq_of_mul_eq_mul_right hn this
      subst ht1
      rw [ht2]
      simp
    · rcases hband with ⟨_, heq⟩ | ⟨_, heq⟩
      · have hstep : t1 * coordinates.length + coordinates.length * k = t2 * coordinates.length := by omega
        have : (t1 + k) * coordinates.length = t2 * coordinates.length := by rw [← hstep]; ring
        have hks : t1 + k = t2 := Nat.eq_of_mul_eq_mul_right hn this
        omega
      · have hstep : t2 * coordinates.length + coordinates.length * k = t1 * coordinates.length := by omega
        have : (t2 + k) * coordinates.length = t1 * coordinates.length := by rw [← hstep]; ring
        have hks : t2 + k = t1 := Nat.eq_of_mul_eq_mul_right hn this
        omega
  · intro hdiff
    rcases Nat.lt_trichotomy t1 t2 with hlt | heq | hgt
    · have hk1 : 1 ≤ t2 - t1 := by omega
      have hk2 : t2 - t1 ≤ threshold_timesteps := by omega
      obtain ⟨hb1, hb2⟩ := band_indices coordinates.length n_timesteps u t1 t2 (t2 - t1) hu h2 (by omega)
      exact Or.inr ⟨t2 - t1, hk1, hk2, Or.inl ⟨hb1, hb2⟩⟩
    · refine Or.inl ⟨t1, h1, u, u, ?_, rfl, by rw [heq]⟩
      exact (mem_spatialPairs coordinates threshold_space space_sparse u u).2
        ⟨hu, hu, proximity_matrix_space_self coordinates threshold_space space_sparse u hu hts⟩
    · have hk1 : 1 ≤ t1 - t2 := by omega
      have hk2 : t1 - t2 ≤ threshold_timesteps := by omega
      obtain ⟨hb1, hb2⟩ := band_indices coordinates.length n_timesteps u t2 t1 (t1 - t2) hu h1 (by omega)
      exact Or.inr ⟨t1 - t2, hk1, hk2, Or.inr ⟨hb1, hb2⟩⟩

theorem spacetime_same_unit_adjacency_witness :
    compute_sparse_boolean_proximity_matrix_space_time [[0], [1]] 3 1 1 false =
        some (spacetime_entry [[0], [1]] 3 1 1 false) ∧
      (0 : ℚ) ≤ 1 ∧ 0 < ([[0], [1]] : List (List ℚ)).length ∧ 0 < 3 ∧ 2 < 3 ∧
      (spacetime_entry [[0], [1]] 3 1 1 false (0 + 0 * ([[0], [1]] : List (List ℚ)).length)
          (0 + 2 * ([[0], [1]] : List (List ℚ)).length) = true ↔
        ((0 : Int) - (2 : Int)).natAbs ≤ 1) := by
  refine ⟨rfl, by norm_num, by decide, by decide, by decide, ?_⟩
  exact spacetime_same_unit_adjacency [[0], [1]] 3 1 1 false
    (spacetime_entry [[0], [1]] 3 1 1 false) 0 0 2 rfl (by norm_num) (by decide)
    (by decide) (by decide)

/-! ### Thresholding and linearization (`mass_univariate.py`) -/

/-- Embeds `p.T.flatten()` (mass_univariate.py lines 23 and 28): the grid
`g : unit → timestep → value` of shape `(n_units, n_timesteps)` is
transposed and unrolled row-major, so node `(u, ts)` lands at flat index
`u + ts * n_units` — the node order of the space-time proximity matrix. -/
def tflatten (n_units n_timesteps : Nat) (g : Nat → Nat → ℚ) : List ℚ :=
  (List.range n_timesteps).flatMap (fun ts => (List.range n_units).map (fun u => g u ts))

/-- Embeds `np.where(flat <= p_value_threshold)[0]` (mass_univariate.py line 28):
the indices of the below-threshold entries, in increasing order. -/
def np_where_le (l : List ℚ) (p_value_threshold : ℚ) : List Nat :=
  (List.range l.length).filter (fun i => l.getD i 0 ≤ p_value_threshold)

/-- The surviving-index set `idx` of `compute_ttest_clusters`
(mass_univariate.py line 28). -/
def surviving_idx (n_units n_timesteps : Nat) (p : Nat → Nat → ℚ)
    (p_value_threshold : ℚ) : List Nat :=
  np_where_le (tflatten n_units n_timesteps p) p_value_threshold

/-- Embeds `unit_s = unit_ts % n_units` (mass_univariate.py line 120). -/
def decode_unit (n_units unit_ts : Nat) : Nat := unit_ts % n_units

/-- Embeds `timestep = unit_ts // n_units` (mass_univariate.py line 121). -/
def decode_timestep (n_units unit_ts : Nat) : Nat := unit_ts / n_units

theorem flatMap_range_length_getD (d : ℚ) (m n : Nat) (f : Nat → List ℚ)
    (hlen : ∀ t, (f t).length = n) :
    ((List.range m).flatMap f).length = m * n ∧
      ∀ i, i < m * n → ((List.range m).flatMap f).getD i d = (f (i / n)).getD (i % n) d := by
  induction m with
  | zero => simp
  | succ m ih =>
    obtain ⟨ihl, ihv⟩ := ih
    rw [List.range_succ, List.flatMap_append, List.flatMap_cons, List.flatMap_nil,
      List.append_nil]
    constructor
    · rw [List.length_append, ihl, hlen m]
      ring
    · intro i hi
      by_cases hcase : i < m * n
      · rw [List.getD_append _ _ _ _ (by rw [ihl]; exact hcase)]
        exact ihv i hcase
      · have hn : 0 < n := by
          rcases Nat.eq_zero_or_pos n with h0 | h0
          · subst h0; omega
          · exact h0
        have hs : (m + 1) * n = m * n + n := by ring
        have hr : i - m * n < n := by omega
        have hidx : i = n * m + (i - m * n) := by
          have := Nat.mul_comm m n
          omega
        rw [List.getD_append_right _ _ _ _ (by rw [ihl]; omega)]
        rw [ihl]
        have hdiv : i / n = m := by
          conv_lhs => rw [hidx]
          rw [Nat.mul_add_div hn, Nat.div_eq_of_lt hr]
          omega
        have hmod : i % n = i - m * n := by
          conv_lhs => rw [hidx]
          rw [Nat.mul_add_mod, Nat.mod_eq_of_lt hr]
        rw [hdiv, hmod]

theorem getD_map_range (n u : Nat) (h : u < n) (f : Nat → ℚ) :
    ((List.range n).map f).getD u 0 = f u := by
  rw [List.getD_eq_getElem?_getD]
  rw [List.getElem?_map]
  rw [List.getElem?_range h]
  rfl

theorem tflatten_length_getD (n_units n_timesteps : Nat) (g : Nat → Nat → ℚ) :
    (tflatten n_units n_timesteps g).length = n_timesteps * n_units ∧
      ∀ i, i < n_timesteps * n_units →
        (tflatten n_units n_timesteps g).getD i 0 =
          g (i % n_units) (i / n_units) := by
  unfold tflatten
  obtain ⟨hl, hv⟩ := flatMap_range_length_getD 0 n_timesteps n_units
    (fun ts => (List.range n_units).map (fun u => g u ts)) (fun t => by simp)
  refine ⟨hl, fun i hi => ?_⟩
  rw [hv i hi]
  have hn : 0 < n_units := by
    rcases Nat.eq_zero_or_pos n_units with h0 | h0
    · rw [h0, Nat.mul_zero] at hi
      omega
    · exact h0
  exact getD_map_range n_units (i % n_units) (Nat.mod_lt i hn) _

/-- C7: the surviving-index set is exactly the set of flat node indices
whose p-value is below the threshold, with the p-values (like the
statistic values) flattened in the proximity node order — node
`(unit, timestep)` at flat index `unit + timestep * n_units` — and the
decoding used for reporting (`% n_units`, `// n_units`) inverts exactly
that linearization. -/
theorem surviving_set_and_linearization (n_units n_timesteps : Nat) (p : Nat → Nat → ℚ)
    (p_value_threshold : ℚ) :
    (∀ i, i ∈ surviving_idx n_units n_timesteps p p_value_threshold ↔
        i < n_units * n_timesteps ∧
          p (decode_unit n_units i) (decode_timestep n_units i) ≤ p_value_threshold) ∧
      (∀ u ts, u < n_units → ts < n_timesteps →
        (tflatten n_units n_timesteps p).getD (u + ts * n_units) 0 = p u ts) ∧
      (∀ g : Nat → Nat → ℚ, ∀ u ts, u < n_units → ts < n_timesteps →
        (tflatten n_units n_timesteps g).getD (u + ts * n_units) 0 = g u ts) ∧
      (∀ u ts, u < n_units →
        decode_unit n_units (u + ts * n_units) = u ∧
          decode_timestep n_units (u + ts * n_units) = ts) := by
  obtain ⟨hl, hv⟩ := tflatten_length_getD n_units n_timesteps p
  have hdecode : ∀ u ts, u < n_units →
      decode_unit n_units (u + ts * n_units) = u ∧
        decode_timestep n_units (u + ts * n_units) = ts := by
    intro u ts hu
    have hn : 0 < n_units := Nat.lt_of_le_of_lt (Nat.zero_le u) hu
    constructor
    · unfold decode_unit
      rw [Nat.add_mul_mod_self_right, Nat.mod_eq_of_lt hu]
    · unfold decode_timestep
      rw [Nat.add_mul_div_right _ _ hn, Nat.div_eq_of_lt hu, Nat.zero_add]
  have hflat : ∀ g : Nat → Nat → ℚ, ∀ u ts, u < n_units → ts < n_timesteps →
      (tflatten n_units n_timesteps g).getD (u + ts * n_units) 0 = g u ts := by
    intro g u ts hu hts
    obtain ⟨hlg, hvg⟩ := tflatten_length_getD n_units n_timesteps g
    have hn : 0 < n_units := Nat.lt_of_le_of_lt (Nat.zero_le u) hu
    have hidx : u + ts * n_units < n_timesteps * n_units := by
      have h1 : u + ts * n_units < (ts + 1) * n_units := by
        have : (ts + 1) * n_units = ts * n_units + n_units := by ring
        omega
      have h2 : (ts + 1) * n_units ≤ n_timesteps * n_units :=
        Nat.mul_le_mul_right n_units (by omega)
      omega
    rw [hvg _ hidx]
    obtain ⟨hm, hd⟩ := hdecode u ts hu
    unfold decode_unit at hm
    unfold decode_timestep at hd
    rw [hm, hd]
  refine ⟨?_, hflat p, hflat, hdecode⟩
  intro i
  unfold surviving_idx np_where_le
  rw [List.mem_filter, List.mem_range, hl]
  constructor
  · rintro ⟨hi, hle⟩
    have hi' : i < n_units * n_timesteps := by rw [Nat.mul_comm]; exact hi
    refine ⟨hi', ?_⟩
    have := of_decide_eq_true hle
    rw [hv i hi] at this
    exact this
  · rintro ⟨hi, hle⟩
    have hi' : i < n_timesteps * n_units := by rw [Nat.mul_comm]; exact hi
    refine ⟨hi', ?_⟩
    rw [decide_eq_true_eq, hv i hi']
    exact hle

/-! ### Significance evaluation (`mass_univariate.py` lines 103-105) -/

/-- Models `np.sort` ascending, as insertion sort. -/
def sortAsc (l : List ℚ) : List ℚ := l.insertionSort (· ≤ ·)

/-- Conversion of a float index to `int` as numpy indexing does:
truncation toward zero. -/
def pyInt (q : ℚ) : Int := if 0 ≤ q then ⌊q⌋ else ⌈q⌉

/-- Numpy 1-d array indexing with a (converted) integer index: python
semantics — a negative index within range wraps around from the end,
anything out of range is an `IndexError` (`none`). -/
def npIndex (l : List ℚ) (i : Int) : Option ℚ :=
  if 0 ≤ i then l.get? i.toNat
  else if 0 ≤ (l.length : Int) + i then l.get? ((l.length : Int) + i).toNat
  else none

/-- Embeds `np.sort(max_cluster_statistic)[iterations * (1.0 - p_value_threshold)]`
(mass_univariate.py line 103). -/
def cluster_statistic_threshold (max_cluster_statistic : List ℚ) (iterations : Nat)
    (p_value_threshold : ℚ) : Option ℚ :=
  npIndex (sortAsc max_cluster_statistic)
    (pyInt ((iterations : ℚ) * (1 - p_value_threshold)))

/-- Embeds `np.abs(cluster_statistic) > cluster_statistic_threshold`
(mass_univariate.py line 105): a cluster is flagged iff its absolute
statistic strictly exceeds the critical value. -/
def cluster_significant (stat threshold : ℚ) : Bool := decide (threshold < |stat|)

/-- The null array `[1, 2, ..., 100]` of the spec's significance
scenario. -/
def exNull : List ℚ := (List.range 100).map (fun i : Nat => (i : ℚ) + 1)

theorem npIndex_mem (l : List ℚ) (i : Int) (c : ℚ) (h : npIndex l i = some c) : c ∈ l := by
  unfold npIndex at h
  by_cases h1 : 0 ≤ i
  · rw [if_pos h1] at h
    exact List.get?_mem h
  · rw [if_neg h1] at h
    by_cases h2 : 0 ≤ (l.length : Int) + i
    · rw [if_pos h2] at h
      exact List.get?_mem h
    · rw [if_neg h2] at h
      exact absurd h (by simp)

theorem mem_sortAsc (a : ℚ) (l : List ℚ) : a ∈ sortAsc l ↔ a ∈ l :=
  List.Perm.mem_iff (List.perm_insertionSort (· ≤ ·) l)

theorem exNull_sorted : exNull.Sorted (· ≤ ·) := by
  unfold exNull
  refine List.Pairwise.map _ ?_ (List.sorted_lt_range 100)
  intro a b hab
  have h : (a : ℚ) < (b : ℚ) := by exact_mod_cast hab
  linarith

theorem cluster_statistic_threshold_exNull :
    cluster_statistic_threshold exNull 100 (1 / 20) = some 96 := by
  unfold cluster_statistic_threshold
  have harg : ((100 : Nat) : ℚ) * (1 - 1 / 20) = 95 := by norm_num
  rw [harg]
  have hpy : pyInt (95 : ℚ) = 95 := by
    unfold pyInt
    rw [if_pos (by norm_num : (0:ℚ) ≤ 95)]
    norm_num
  rw [hpy]
  have hsort : sortAsc exNull = exNull := List.Sorted.insertionSort_eq exNull_sorted
  rw [hsort]
  unfold npIndex
  rw [if_pos (by norm_num : (0:Int) ≤ 95)]
  show exNull.get? 95 = some 96
  unfold exNull
  rw [List.get?_eq_getElem?, List.getElem?_map, List.getElem?_range (by norm_num)]
  norm_num

/-- C1 counterexample: on the null array `[1..100]` with
`iterations = 100` and `α = 0.05` the code's critical value is not 95
(the value at 1-based rank ⌈(1-α)·iterations⌉ = 95 of the sorted
array, as the claim states). -/
theorem critical_value_claim_false :
    cluster_statistic_threshold exNull 100 (1 / 20) ≠ some 95 := by
  rw [cluster_statistic_threshold_exNull]
  intro h
  simp at h

/-- C1 (amended): the critical value is the element of the ascending
sort of the null array at 0-based index `trunc((1-α)·iterations)`
(1-based rank `⌊(1-α)·iterations⌋ + 1`), in particular a member of the
null array; `sortAsc` really sorts. For null = `[1..100]`,
`iterations = 100`, `α = 0.05`, the index is 95 and the critical value
is 96; since significance compares strictly (`|stat| > critical`), a
cluster with `|stat| = 97` is significant while clusters with
`|stat| = 96` or `|stat| = 94` are not. -/
theorem critical_value_corrected :
    (∀ l : List ℚ, (sortAsc l).Perm l ∧ (sortAsc l).Sorted (· ≤ ·)) ∧
      (∀ (l : List ℚ) (iters : Nat) (alpha c : ℚ),
        cluster_statistic_threshold l iters alpha = some c → c ∈ l) ∧
      (∀ (l : List ℚ) (iters : Nat) (alpha : ℚ), 0 ≤ (iters : ℚ) * (1 - alpha) →
        cluster_statistic_threshold l iters alpha =
          (sortAsc l).get? (⌊(iters : ℚ) * (1 - alpha)⌋).toNat) ∧
      pyInt ((100 : ℚ) * (1 - 1 / 20)) = 95 ∧
      cluster_statistic_threshold exNull 100 (1 / 20) = some 96 ∧
      cluster_significant 97 96 = true ∧
      cluster_significant 96 96 = false ∧
      cluster_significant 94 96 = false := by
  refine ⟨?_, ?_, ?_, ?_, cluster_statistic_threshold_exNull, ?_, ?_, ?_⟩
  · intro l
    exact ⟨List.perm_insertionSort (· ≤ ·) l, List.sorted_insertionSort (· ≤ ·) l⟩
  · intro l iters alpha c h
    exact (mem_sortAsc c l).1 (npIndex_mem _ _ c h)
  · intro l iters alpha hnn
    unfold cluster_statistic_threshold npIndex pyInt
    rw [if_pos hnn, if_pos (Int.le_floor.2 (by exact_mod_cast hnn))]
  · unfold pyInt
    rw [if_pos (by norm_num : (0:ℚ) ≤ 100 * (1 - 1 / 20))]
    rw [show (100 : ℚ) * (1 - 1 / 20) = 95 by norm_num]
    norm_num
  · unfold cluster_significant
    rw [decide_eq_true_eq, abs_of_pos (by norm_num : (0:ℚ) < 97)]
    norm_num
  · unfold cluster_significant
    rw [decide_eq_false_iff_not, abs_of_pos (by norm_num : (0:ℚ) < 96)]
    norm_num
  · unfold cluster_significant
    rw [decide_eq_false_iff_not, abs_of_pos (by norm_num : (0:ℚ) < 94)]
    norm_num

/-! ### Configuration validation (C9) -/

theorem cluster_statistic_threshold_empty :
    cluster_statistic_threshold [] 0 (1 / 20) = none := by
  unfold cluster_statistic_threshold
  have harg : ((0 : Nat) : ℚ) * (1 - 1 / 20) = 0 := by norm_num
  rw [harg]
  have hpy : pyInt (0 : ℚ) = 0 := by
    unfold pyInt
    rw [if_pos (le_refl (0 : ℚ))]
    norm_num
  rw [hpy]
  rfl

/-- C9 counterexample: a run configured with a negative
`threshold_space` is not rejected — the space-time proximity
construction runs to completion and returns a matrix. -/
theorem negative_threshold_space_not_rejected :
    (compute_sparse_boolean_proximity_matrix_space_time [[0]] 2 1 (-1) false).isSome =
      true := by decide

/-- C9 (amended): the code validates nothing: whenever
`threshold_timesteps < n_timesteps` the space-time construction
succeeds for any `threshold_space` — negative included, in which case
the spatial adjacency is identically false — and an `iterations = 0`
run fails only afterwards, at the final quantile-indexing step
(empty-array `IndexError`, here `none`), not before computation
starts. -/
theorem no_configuration_validation (coordinates : List (List ℚ))
    (n_timesteps threshold_timesteps : Nat) (threshold_space : ℚ) (space_sparse : Bool)
    (h : threshold_timesteps < n_timesteps) :
    (compute_sparse_boolean_proximity_matrix_space_time coordinates n_timesteps
        threshold_timesteps threshold_space space_sparse).isSome = true ∧
      (∀ i j, threshold_space < 0 →
        compute_boolean_proximity_matrix coordinates threshold_space i j = false) ∧
      cluster_statistic_threshold [] 0 (1 / 20) = none := by
  refine ⟨?_, ?_, cluster_statistic_threshold_empty⟩
  · unfold compute_sparse_boolean_proximity_matrix_space_time
    have hok : spacetime_ok coordinates.length n_timesteps threshold_timesteps = true := by
      unfold spacetime_ok
      rw [List.all_eq_true]
      intro k0 hk0
      have hk : k0 + 1 < n_timesteps := by
        have := List.mem_range.1 hk0
        omega
      unfold setdiag_ok
      rw [Bool.and_eq_true]
      constructor
      · rw [decide_eq_true_eq]
        have h1 : (0 : Int) ≤ (coordinates.length : Int) := Int.ofNat_nonneg _
        have h2 : (0 : Int) ≤ (n_timesteps : Int) - ((k0 + 1 : Nat) : Int) := by
          have := hk
          omega
        exact mul_nonneg h1 h2
      · rw [Bool.or_eq_true]
        rcases Nat.eq_zero_or_pos coordinates.length with h0 | h0
        · exact Or.inl (by rw [h0]; simp)
        · refine Or.inr ?_
          rw [decide_eq_true_eq]
          exact mul_lt_mul_of_pos_left hk h0
    rw [hok]
    simp
  · intro i j hneg
    unfold compute_boolean_proximity_matrix distLE
    rw [decide_eq_false_iff_not]
    rintro ⟨h0, _⟩
    exact absurd (lt_of_lt_of_le hneg h0) (lt_irrefl threshold_space)

theorem no_configuration_validation_witness :
    1 < 2 ∧
      ((compute_sparse_boolean_proximity_matrix_space_time [[0]] 2 1 (-1) false).isSome =
          true ∧
        (∀ i j, (-1 : ℚ) < 0 →
          compute_boolean_proximity_matrix [[0]] (-1) i j = false) ∧
        cluster_statistic_threshold [] 0 (1 / 20) = none) :=
  ⟨by decide, no_configuration_validation [[0]] 2 1 (-1) false (by decide)⟩

/-! ### Permutation engine (`mass_univariate.py` lines 78-101) -/

/-- Models `np.abs(...).max()`: numpy's `max` reduction, which raises a
`ValueError` (`none`) on an empty array. -/
def npMax : List ℚ → Option ℚ
  | [] => none
  | x :: xs => some (xs.foldl max x)

/-- Embeds `np.abs(cluster_statistic_i).max()` (mass_univariate.py lines 85
and 97): the value recorded for one permutation iteration, given that
iteration's list of cluster statistics. -/
def recorded_value (cluster_statistic : List ℚ) : Option ℚ :=
  npMax (cluster_statistic.map (fun x => |x|))

theorem le_foldl_max (xs : List ℚ) (a : ℚ) : a ≤ xs.foldl max a := by
  induction xs generalizing a with
  | nil => exact le_refl a
  | cons x xs ih => exact le_trans (le_max_left a x) (ih (max a x))

theorem mem_le_foldl_max (xs : List ℚ) : ∀ a y : ℚ, y ∈ xs → y ≤ xs.foldl max a := by
  induction xs with
  | nil => intro a y hy; cases hy
  | cons x xs ih =>
    intro a y hy
    rcases List.mem_cons.1 hy with rfl | hy'
    · exact le_trans (le_max_right a y) (le_foldl_max xs (max a y))
    · exact ih (max a x) y hy'

theorem foldl_max_mem (xs : List ℚ) (a : ℚ) :
    xs.foldl max a = a ∨ xs.foldl max a ∈ xs := by
  induction xs generalizing a with
  | nil => exact Or.inl rfl
  | cons x xs ih =>
    rcases ih (max a x) with h | h
    · rcases max_choice a x with hm | hm
      · exact Or.inl (by rw [List.foldl_cons, h, hm])
      · exact Or.inr (List.mem_cons.2 (Or.inl (by rw [List.foldl_cons, h, hm])))
    · exact Or.inr (List.mem_cons.2 (Or.inr h))

/-- C4 counterexample: an iteration with no surviving clusters (empty
cluster-statistic array, per the spec's ClusterFormer contract) does
not record 0 — numpy's `max` of an empty array raises instead. -/
theorem recorded_value_empty_not_zero : recorded_value [] ≠ some 0 := by
  simp [recorded_value, npMax]

/-- C4 (amended): for an iteration with at least one cluster the
recorded value is exactly the maximum of the absolute values of that
iteration's cluster statistics; for an iteration with no clusters the
code raises (`none`) instead of recording 0. -/
theorem recorded_value_is_max_abs (cluster_statistic : List ℚ)
    (h : cluster_statistic ≠ []) :
    (∃ m, recorded_value cluster_statistic = some m ∧
        (∀ x ∈ cluster_statistic, |x| ≤ m) ∧
        (∃ x ∈ cluster_statistic, |x| = m)) ∧
      recorded_value [] = none := by
  refine ⟨?_, by simp [recorded_value, npMax]⟩
  cases cluster_statistic with
  | nil => exact absurd rfl h
  | cons c cs =>
    refine ⟨(cs.map (fun x => |x|)).foldl max |c|, rfl, ?_, ?_⟩
    · intro x hx
      rcases List.mem_cons.1 hx with rfl | hx'
      · exact le_foldl_max _ _
      · exact mem_le_foldl_max _ _ _ (List.mem_map_of_mem _ hx')
    · rcases foldl_max_mem (cs.map (fun x => |x|)) |c| with hm | hm
      · exact ⟨c, List.mem_cons_self c cs, hm.symm⟩
      · obtain ⟨x, hx, hxm⟩ := List.mem_map.1 hm
        exact ⟨x, List.mem_cons_of_mem c hx, hxm⟩

theorem recorded_value_is_max_abs_witness :
    ([(3 : ℚ), -5] ≠ []) ∧
      ((∃ m, recorded_value [(3 : ℚ), -5] = some m ∧
          (∀ x ∈ [(3 : ℚ), -5], |x| ≤ m) ∧
          (∃ x ∈ [(3 : ℚ), -5], |x| = m)) ∧
        recorded_value [] = none) :=
  ⟨by simp, recorded_value_is_max_abs [(3 : ℚ), -5] (by simp)⟩

/-- One batch of permutation iterations
(`ttest_cluster_statistic_permuted_batch`, mass_univariate.py lines
92-98). `next` performs one `np.random.permutation(yy)` draw on
whatever RNG state `σ` it is handed and returns the iteration's
recorded value together with the advanced state; the pipeline
downstream of the draw (`compute_ttest_clusters` and the max-abs
reduction) is a deterministic function of the draw, so it is folded
into `next`. The batch function performs no seeding of its own. -/
def batch_run {σ : Type} (next : σ → ℚ × σ) : Nat → σ → List ℚ × σ
  | 0, s => ([], s)
  | b + 1, s =>
    let vs := next s
    let rest := batch_run next b vs.2
    (vs.1 :: rest.1, rest.2)

/-- The serial null run (mass_univariate.py lines 78-85): `iterations`
draws threaded through the single global RNG state that
`np.random.seed(seed)` initialised. -/
def serial_null_distribution {σ : Type} (next : σ → ℚ × σ) (seed_state : σ)
    (iterations : Nat) : List ℚ :=
  (batch_run next iterations seed_state).1

/-- The concatenated contents of the parallel batches
(mass_univariate.py lines 88-101): `iterations / batch_size` batches
(python integer division, line 100), each executed by a joblib worker
on that worker process's own RNG state `worker_state w` — a state the
batch function never derives from the master seed — with the batch
results joined. This is what `np.concatenate` on line 101 returns when
there is at least one batch; the raising zero-batch case of line 101 is
modelled by `np_concatenate` and `parallel_null_run` below. -/
def parallel_null_distribution {σ : Type} (next : σ → ℚ × σ)
    (iterations batch_size : Nat) (worker_state : Nat → σ) : List ℚ :=
  (List.range (iterations / batch_size)).flatMap
    (fun w => (batch_run next batch_size (worker_state w)).1)

/-- Embeds `np.concatenate` (mass_univariate.py line 101): on an empty
list of arrays numpy raises `ValueError: need at least one array to
concatenate` (`none`); otherwise the arrays are joined. -/
def np_concatenate (arrays : List (List ℚ)) : Option (List ℚ) :=
  if arrays.isEmpty then none else some arrays.flatten

/-- The full parallel null run (mass_univariate.py lines 100-101):
line 100 produces one result array per batch — `iterations / batch_size`
of them — and line 101 concatenates them, raising (`none`) when there
are zero batches, i.e. when `iterations < batch_size`. -/
def parallel_null_run {σ : Type} (next : σ → ℚ × σ)
    (iterations batch_size : Nat) (worker_state : Nat → σ) : Option (List ℚ) :=
  np_concatenate ((List.range (iterations / batch_size)).map
    (fun w => (batch_run next batch_size (worker_state w)).1))

/-- A demonstration RNG/pipeline for concrete runs: the state is a draw
counter and the recorded value of a draw is the counter's value. -/
def demoNext : Nat → ℚ × Nat := fun s => ((s : ℚ), s + 1)

theorem batch_run_length {σ : Type} (next : σ → ℚ × σ) (b : Nat) (s : σ) :
    (batch_run next b s).1.length = b := by
  induction b generalizing s with
  | zero => rfl
  | succ b ih => simp [batch_run, ih]

/-- C2: with a fixed master seed, the parallel path's null array is not
a function of the master seed at all — the batch function draws from
each worker process's own RNG state without ever reseeding, so two
executions of `iterations = 2`, `batch_size = 1` whose worker states
differ (as they may under any scheduling, since no worker state is
derived from the master seed) yield different null multisets. -/
theorem parallel_null_depends_on_worker_states :
    parallel_null_distribution demoNext 2 1 (fun w => w) = [(0 : ℚ), 1] ∧
      parallel_null_distribution demoNext 2 1 (fun _ => 0) = [(0 : ℚ), 0] ∧
      ¬ (parallel_null_distribution demoNext 2 1 (fun w => w)).Perm
        (parallel_null_distribution demoNext 2 1 (fun _ => 0)) := by
  have h1 : parallel_null_distribution demoNext 2 1 (fun w => w) = [(0 : ℚ), 1] := by
    simp [parallel_null_distribution, batch_run, demoNext, List.range_succ]
  have h2 : parallel_null_distribution demoNext 2 1 (fun _ => 0) = [(0 : ℚ), 0] := by
    simp [parallel_null_distribution, batch_run, demoNext, List.range_succ]
  refine ⟨h1, h2, ?_⟩
  intro hp
  have hmem : (1 : ℚ) ∈ parallel_null_distribution demoNext 2 1 (fun w => w) := by
    rw [h1]; simp
  have hmem2 := hp.mem_iff.1 hmem
  rw [h2] at hmem2
  simp at hmem2

theorem parallel_null_run_eq {σ : Type} (next : σ → ℚ × σ)
    (iterations batch_size : Nat) (worker_state : Nat → σ) :
    parallel_null_run next iterations batch_size worker_state =
      if iterations / batch_size = 0 then none
      else some (parallel_null_distribution next iterations batch_size worker_state) := by
  unfold parallel_null_run np_concatenate parallel_null_distribution
  by_cases h : iterations / batch_size = 0
  · rw [h]
    simp
  · rw [if_neg h]
    have hne : ((List.range (iterations / batch_size)).map
        (fun w => (batch_run next batch_size (worker_state w)).1)).isEmpty = false := by
      simp [List.isEmpty_iff, List.range_eq_nil, h]
    rw [hne]
    simp [List.flatMap_def]

theorem parallel_null_distribution_length {σ : Type} (next : σ → ℚ × σ)
    (iterations batch_size : Nat) (worker_state : Nat → σ) :
    (parallel_null_distribution next iterations batch_size worker_state).length =
      batch_size * (iterations / batch_size) := by
  unfold parallel_null_distribution
  rw [List.length_flatMap]
  have hmap : (List.range (iterations / batch_size)).map
      (List.length ∘ fun w => (batch_run next batch_size (worker_state w)).1) =
      (List.range (iterations / batch_size)).map (fun _ => batch_size) := by
    apply List.map_congr_left
    intro w _
    exact batch_run_length next batch_size (worker_state w)
  rw [hmap, List.map_const', List.sum_replicate, List.length_range, smul_eq_mul,
    Nat.mul_comm]

/-- C3 counterexample: with `iterations = 10` and `batch_size = 3` the
parallel run returns a null array of length 9, not 10; and with
`iterations = 5`, `batch_size = 20` there are zero batches, so line
101's `np.concatenate` raises and no array is returned at all. -/
theorem parallel_null_length_claim_false :
    (parallel_null_run demoNext 10 3 (fun w => w)).map List.length ≠ some 10 ∧
      parallel_null_run demoNext 5 20 (fun w => w) = none := by
  constructor
  · rw [parallel_null_run_eq]
    have h0 : (10 : Nat) / 3 = 3 := by norm_num
    rw [h0, if_neg (by omega)]
    have hlen : (parallel_null_distribution demoNext 10 3 (fun w => w)).length = 9 := by
      rw [parallel_null_distribution_length]
    simp [hlen]
  · rw [parallel_null_run_eq]
    norm_num

/-- C3 (amended): the parallel path returns a null array only when
there is at least one batch: for `iterations < batch_size` (zero
batches) line 101's `np.concatenate` raises and no array is returned,
and otherwise the returned array has length
`batch_size * (iterations / batch_size)` — equal to `iterations`
exactly when `batch_size` divides `iterations` (as with the script's
1000/20) — while the serial path always yields exactly `iterations`
values. -/
theorem null_distribution_length {σ : Type} (next : σ → ℚ × σ)
    (iterations batch_size : Nat) (worker_state : Nat → σ) (seed_state : σ) :
    (iterations / batch_size = 0 →
        parallel_null_run next iterations batch_size worker_state = none) ∧
      (∀ l, parallel_null_run next iterations batch_size worker_state = some l →
        l.length = batch_size * (iterations / batch_size)) ∧
      (serial_null_distribution next seed_state iterations).length = iterations ∧
      (batch_size * (iterations / batch_size) = iterations ↔ batch_size ∣ iterations) := by
  refine ⟨?_, ?_, batch_run_length next iterations seed_state, ?_, ?_⟩
  · intro h
    rw [parallel_null_run_eq, if_pos h]
  · intro l hl
    rw [parallel_null_run_eq] at hl
    by_cases h : iterations / batch_size = 0
    · rw [if_pos h] at hl
      exact absurd hl (by simp)
    · rw [if_neg h] at hl
      obtain rfl : parallel_null_distribution next iterations batch_size worker_state = l :=
        Option.some_inj.1 hl
      exact parallel_null_distribution_length next iterations batch_size worker_state
  · intro h
    exact ⟨iterations / batch_size, h.symm⟩
  · intro h
    exact Nat.mul_div_cancel' h

end Cbpktst
